import Mathlib

/-!
Verification of the include-resolving preprocessor in src/index.js of
sqlpage-includer.  JavaScript strings are modelled as lists of characters
(JStr); the filesystem is an association list from absolute paths to file
contents.  Node library functions used by the program (path.resolve,
path.join, path.relative, path.extname, fs primitives) are modelled for
the case the program exercises: absolute roots and plain relative
segments without dot-segments.
-/

/-- A JavaScript string, modelled as a list of characters. -/
abbrev JStr := List Char

deriving instance DecidableEq for Except

/-- Conversion from a Lean string literal to the model type. -/
def str (s : String) : JStr := s.toList

/-- The single normalized line terminator appended by the resolver
(the literal newline in resolvedContent += line + newline). -/
def nlc : JStr := ['\n']

/-- Helper for fileContent.split of the regex that matches an optional
carriage return followed by a newline: cur is the current line read so
far, in reverse order.  A lone carriage return is not a separator, which
matches the JavaScript regex used at src/index.js line 21. -/
def splitLinesAux : JStr → JStr → List JStr
  | [], cur => [cur.reverse]
  | '\r' :: '\n' :: rest, cur => cur.reverse :: splitLinesAux rest []
  | '\n' :: rest, cur => cur.reverse :: splitLinesAux rest []
  | c :: rest, cur => splitLinesAux rest (c :: cur)

/-- fileContent.split on LF or CRLF, as in src/index.js line 21. -/
def splitLines (s : JStr) : List JStr := splitLinesAux s []

/-- The directive marker tested by line.startsWith at src/index.js line 25. -/
def marker : JStr := str "##include"

/-- JavaScript regex whitespace class (the ASCII part, which is all the
program can meet in practice). -/
def isSpaceJS (c : Char) : Bool :=
  c = ' ' || c = '\t' || c = '\n' || c = '\r' || c = '\x0b' || c = '\x0c'

/-- Characters matched by the regex dot (it does not match line
terminators). -/
def isDotChar (c : Char) : Bool := !(c = '\n') && !(c = '\r')

/-- Strip a literal from the front of a string, or fail. -/
def dropLit : JStr → JStr → Option JStr
  | [], rest => some rest
  | c :: cs, d :: ds => if d = c then dropLit cs ds else none
  | _ :: _, [] => none

/-- Attempt to match the regex of src/index.js line 26 (the marker, one
or more whitespace characters, an opening angle bracket, a greedy
nonempty capture, a closing angle bracket) at the start of the given
text, returning the capture group.  The greedy capture extends to the
last closing angle bracket inside the run of dot-matchable characters. -/
def captureAt (l : JStr) : Option JStr :=
  match dropLit marker l with
  | none => none
  | some r1 =>
    let ws := r1.takeWhile isSpaceJS
    if ws.isEmpty then none
    else
      match r1.drop ws.length with
      | '<' :: r2 =>
        let dotRun := r2.takeWhile isDotChar
        match dotRun.reverse.dropWhile (fun c => !(c = '>')) with
        | '>' :: revCap => if revCap.isEmpty then none else some revCap.reverse
        | _ => none
      | _ => none

/-- Leftmost regex search: try every start position from the left. -/
def regexSearch : JStr → Option JStr
  | [] => none
  | c :: rest =>
    match captureAt (c :: rest) with
    | some r => some r
    | none => regexSearch rest

/-- line.match of the include regex at src/index.js line 26, reduced to
the capture group of interest. -/
def includeMatch (line : JStr) : Option JStr := regexSearch line

/-- Node path.resolve(root, rel) for an absolute root and a rel without
dot-segments: an absolute rel wins, otherwise the two are joined. -/
def pathResolve (root rel : JStr) : JStr :=
  if rel.head? = some '/' then rel else root ++ '/' :: rel

/-- Node path.join for the plain shapes used by the program. -/
def pathJoin (a b : JStr) : JStr := a ++ '/' :: b

/-- Node path.relative(root, p) for the case the program exercises:
p lies strictly under root. -/
def pathRelative (root p : JStr) : JStr :=
  if (root ++ ['/']).isPrefixOf p then p.drop (root.length + 1) else p

/-- The filesystem: an association list from absolute path to content.
Later writes shadow earlier entries. -/
structure Fs where
  files : List (JStr × JStr)

/-- fs.readFileSync, returning none where the JavaScript call throws. -/
def Fs.read (fs : Fs) (p : JStr) : Option JStr := fs.files.lookup p

/-- fs.writeFileSync: record the new content for the path. -/
def Fs.write (fs : Fs) (p c : JStr) : Fs := ⟨(p, c) :: fs.files⟩

/-- fs.existsSync, restricted to the flat file map of the model. -/
def fsExists (fs : Fs) (p : JStr) : Bool := (fs.read p).isSome

/-- The message of the depth error thrown at src/index.js line 16. -/
def depthMsg (filePath : JStr) : JStr :=
  str "Max recursion depth exceeded while processing includes in " ++ filePath

/-- The wrapping applied by the catch block at src/index.js line 44. -/
def procMsg (filePath e : JStr) : JStr :=
  str "Error processing file " ++ filePath ++ str ": " ++ e

/-- Modelled message of the exception a failing readFileSync throws. -/
def readFailMsg (filePath : JStr) : JStr :=
  str "ENOENT: no such file or directory, open " ++ filePath

/-- console.error text for a missing include target, src/index.js line 33. -/
def fileNotFoundMsg (includeFilePath : JStr) : JStr :=
  str "Error: File not found - " ++ includeFilePath

/-- console.error text for a malformed directive, src/index.js line 36. -/
def malformedMsg (line : JStr) : JStr :=
  str "Error: Malformed include directive - " ++ line

/-- One iteration of the line loop of resolveIncludes (src/index.js
lines 24 to 40).  The accumulator carries the resolved content built so
far together with the console.error diagnostics emitted so far; a raised
error from a nested resolution aborts the rest of the loop, as the
JavaScript throw does.  resolveSub is the recursive resolution at the
next depth. -/
def resolveStep (resolveSub : JStr → Except JStr (JStr × List JStr))
    (fs : Fs) (includeRoot : JStr)
    (acc : Except JStr (JStr × List JStr)) (line : JStr) :
    Except JStr (JStr × List JStr) :=
  match acc with
  | .error e => .error e
  | .ok (s, ds) =>
    if marker.isPrefixOf line then
      match includeMatch line with
      | some target =>
        let includeFilePath := pathResolve includeRoot target
        if fsExists fs includeFilePath then
          match resolveSub includeFilePath with
          | .error e => .error e
          | .ok (s2, ds2) => .ok (s ++ s2 ++ nlc, ds ++ ds2)
        else .ok (s, ds ++ [fileNotFoundMsg includeFilePath])
      | none => .ok (s, ds ++ [malformedMsg line])
    else .ok (s ++ line ++ nlc, ds)

/-- resolveIncludes of src/index.js lines 14 to 45, with the recursion
measured by remaining fuel: a call at currentDepth carries fuel
maxRecursion + 1 - currentDepth, so fuel 0 is exactly the condition
currentDepth greater than maxRecursion of line 15, and the nested call
at currentDepth + 1 of line 30 carries one unit less.  The value is the
resolved content paired with the console.error diagnostics emitted, and
an error value is the message of the exception the JavaScript function
throws; the catch at line 43 wraps any inner error with the current
file path. -/
def resolveIncludesAux (fs : Fs) (includeRoot : JStr) :
    Nat → JStr → Except JStr (JStr × List JStr)
  | 0, filePath => .error (depthMsg filePath)
  | fuel + 1, filePath =>
    match fs.read filePath with
    | none => .error (procMsg filePath (readFailMsg filePath))
    | some content =>
      match (splitLines content).foldl
          (resolveStep (resolveIncludesAux fs includeRoot fuel) fs includeRoot)
          (Except.ok ([], [])) with
      | .error e => .error (procMsg filePath e)
      | .ok r => .ok r

/-- resolveIncludes with the signature of src/index.js line 14; the
JavaScript default for currentDepth is 0. -/
def resolveIncludes (fs : Fs) (includeRoot : JStr) (maxRecursion : Nat)
    (filePath : JStr) (currentDepth : Nat) : Except JStr (JStr × List JStr) :=
  resolveIncludesAux fs includeRoot (maxRecursion + 1 - currentDepth) filePath

/-- processTextFile of src/index.js lines 49 to 62, as a transform of the
output filesystem paired with the console messages of the call.  The try
block runs the resolver and writes the result to the projected output
path; the catch prints the error message and leaves the output
filesystem untouched.  Creation of ancestor directories has no
counterpart in the flat file-map model. -/
def processTextFile (fs outFs : Fs) (filePath outputDir includeRoot : JStr)
    (maxRecursion : Nat) (watchRoot : JStr) : Fs × List JStr :=
  match resolveIncludes fs includeRoot maxRecursion filePath 0 with
  | .error e => (outFs, [e])
  | .ok (resolvedContent, ds) =>
    let relativePath := pathRelative watchRoot filePath
    let outputFilePath := pathJoin outputDir relativePath
    (outFs.write outputFilePath resolvedContent,
      ds ++ [str "Processed text file written to: " ++ outputFilePath])

/-- copyBinaryFile of src/index.js lines 65 to 75. -/
def copyBinaryFile (fs outFs : Fs) (filePath outputDir watchRoot : JStr) :
    Fs × List JStr :=
  let relativePath := pathRelative watchRoot filePath
  let outputFilePath := pathJoin outputDir relativePath
  match fs.read filePath with
  | none => (outFs, [str "Error copying file " ++ filePath])
  | some c =>
    (outFs.write outputFilePath c,
      [str "Copied binary file to: " ++ outputFilePath])

/-- The basename of a path: the segment after the last slash. -/
def pathBasename (p : JStr) : JStr :=
  (p.reverse.takeWhile (fun c => !(c = '/'))).reverse

/-- Node path.extname: the extension starting at the last dot of the
basename; a dot leading the basename, or the special names of one or two
dots, give the empty extension. -/
def pathExtname (p : JStr) : JStr :=
  let b := pathBasename p
  if b = str "." ∨ b = str ".." then []
  else
    let afterDot := (b.reverse.takeWhile (fun c => !(c = '.'))).length
    if afterDot = b.length then []
    else if b.length - 1 - afterDot = 0 then []
    else b.drop (b.length - 1 - afterDot)

/-- isTextFile of src/index.js lines 8 to 11; the extension set is
modelled as a list of lower-cased extensions. -/
def isTextFile (filePath : JStr) (textExtensions : List JStr) : Bool :=
  ((pathExtname filePath).map Char.toLower) ∈ textExtensions

/-- The containment test of src/index.js lines 85 and 107: a plain
string-prefix test between resolved paths.  path.resolve of an already
absolute normalized path is the path itself. -/
def shouldSkip (filePath outputDir : JStr) : Bool :=
  outputDir.isPrefixOf filePath

/-- The shape of the input tree handed to the directory walk: readdir
names plus, for directories, their own entries. -/
inductive FTree where
  | file (name : JStr)
  | dir (name : JStr) (entries : List FTree)

/-- The readdir name of an entry. -/
def FTree.name : FTree → JStr
  | .file n => n
  | .dir n _ => n

mutual

/-- processDirectory of src/index.js lines 78 to 97: the loop over the
entries of one directory, threading the output filesystem and
concatenating console messages. -/
def processDirectory (fs : Fs) (inputDir outputDir : JStr)
    (textExtensions : List JStr) (includeRoot : JStr) (maxRecursion : Nat)
    (watchRoot : JStr) (entries : List FTree) (outFs : Fs) : Fs × List JStr :=
  match entries with
  | [] => (outFs, [])
  | e :: rest =>
    let r1 := processEntry fs inputDir outputDir textExtensions includeRoot
      maxRecursion watchRoot e outFs
    let r2 := processDirectory fs inputDir outputDir textExtensions includeRoot
      maxRecursion watchRoot rest r1.1
    (r2.1, r1.2 ++ r2.2)

/-- The body of the loop of processDirectory for one entry: skip when
the resolved path starts with the resolved output directory (lines 85 to
87), recurse into directories, and route files through the classifier. -/
def processEntry (fs : Fs) (inputDir outputDir : JStr)
    (textExtensions : List JStr) (includeRoot : JStr) (maxRecursion : Nat)
    (watchRoot : JStr) (e : FTree) (outFs : Fs) : Fs × List JStr :=
  let filePath := pathJoin inputDir e.name
  if shouldSkip filePath outputDir then (outFs, [])
  else
    match e with
    | .file _ =>
      if isTextFile filePath textExtensions then
        processTextFile fs outFs filePath outputDir includeRoot maxRecursion
          watchRoot
      else copyBinaryFile fs outFs filePath outputDir watchRoot
    | .dir _ sub =>
      processDirectory fs filePath outputDir textExtensions includeRoot
        maxRecursion watchRoot sub outFs

end

/-- The watcher callback of src/index.js lines 101 to 119 for one change
event: a missing filename is ignored, a path inside the output directory
is skipped, a path that no longer names an existing file is ignored, and
otherwise the file is routed exactly as in the initial walk.  In the flat
file-map model, existing paths are regular files. -/
def watchHandleEvent (fs : Fs) (directory outputDir : JStr)
    (textExtensions : List JStr) (includeRoot : JStr) (maxRecursion : Nat)
    (watchRoot : JStr) (outFs : Fs) (filename : Option JStr) : Fs × List JStr :=
  match filename with
  | none => (outFs, [])
  | some fn =>
    let filePath := pathJoin directory fn
    if shouldSkip filePath outputDir then (outFs, [])
    else if fsExists fs filePath then
      if isTextFile filePath textExtensions then
        processTextFile fs outFs filePath outputDir includeRoot maxRecursion
          watchRoot
      else copyBinaryFile fs outFs filePath outputDir watchRoot
    else (outFs, [])

/-- resetOutputDirectory of src/index.js lines 132 to 143.  The state of
the output directory is none when it does not exist and some of its file
entries when it does.  With skipDelete false the directory is removed if
present and recreated empty; with skipDelete true the function only logs
and the state is left exactly as it was. -/
def resetOutputDirectory (outputDirState : Option (List (JStr × JStr)))
    (skipDelete : Bool) : Option (List (JStr × JStr)) :=
  if !skipDelete then some [] else outputDirState

/-- Each line followed by the single normalized terminator: the exact
shape resolveIncludes produces for directive-free lines. -/
def terminateLines (ls : List JStr) : JStr := (ls.map (fun l => l ++ nlc)).flatten

/-- Written from the words of the spec for comparison: the identity
transform up to line-terminator normalization, replacing each LF or CRLF
by the single normalized terminator and changing nothing else. -/
def specNormalizeNewlines (content : JStr) : JStr :=
  List.intercalate nlc (splitLines content)

/-- A well-formed directive line for a given target. -/
def directiveLine (target : JStr) : JStr := str "##include <" ++ target ++ str ">"

/-- Targets as they appear in include chains of the theorems below:
absolute, and free of the characters that would change how the directive
line parses or splits. -/
def cleanAbs (q : JStr) : Prop :=
  q.head? = some '/' ∧ '>' ∉ q ∧ '\r' ∉ q ∧ '\n' ∉ q

instance (q : JStr) : Decidable (cleanAbs q) := by
  unfold cleanAbs; infer_instance

theorem splitLinesAux_other (c : Char) (rest cur : JStr) (h1 : c ≠ '\n')
    (h2 : c ≠ '\r') : splitLinesAux (c :: rest) cur = splitLinesAux rest (c :: cur) := by
  rw [splitLinesAux.eq_def]
  split <;> simp_all

theorem splitLinesAux_no_break (l : JStr) (h : ∀ c ∈ l, c ≠ '\n' ∧ c ≠ '\r') :
    ∀ cur, splitLinesAux l cur = [cur.reverse ++ l] := by
  induction l with
  | nil => intro cur; simp [splitLinesAux]
  | cons c rest ih =>
    intro cur
    have hc := h c (by simp)
    rw [splitLinesAux_other c rest cur hc.1 hc.2,
      ih (fun d hd => h d (by simp [hd]))]
    simp

theorem splitLines_single (l : JStr) (h : ∀ c ∈ l, c ≠ '\n' ∧ c ≠ '\r') :
    splitLines l = [l] := by
  unfold splitLines
  rw [splitLinesAux_no_break l h []]
  simp

theorem splitLinesAux_break (l : JStr) (h : ∀ c ∈ l, c ≠ '\n' ∧ c ≠ '\r') :
    ∀ cur rc, splitLinesAux (l ++ '\n' :: rc) cur =
      (cur.reverse ++ l) :: splitLinesAux rc [] := by
  induction l with
  | nil =>
    intro cur rc
    simp only [List.nil_append]
    rw [splitLinesAux.eq_def]
    simp
  | cons c rest ih =>
    intro cur rc
    have hc := h c (by simp)
    rw [List.cons_append, splitLinesAux_other c _ cur hc.1 hc.2,
      ih (fun d hd => h d (by simp [hd]))]
    simp

theorem splitLines_cons (l rc : JStr) (h : ∀ c ∈ l, c ≠ '\n' ∧ c ≠ '\r') :
    splitLines (l ++ '\n' :: rc) = l :: splitLines rc := by
  unfold splitLines
  rw [splitLinesAux_break l h [] rc]
  simp

theorem foldl_step_error (f : JStr → Except JStr (JStr × List JStr)) (fs : Fs)
    (root : JStr) (e : JStr) (lines : List JStr) :
    lines.foldl (resolveStep f fs root) (.error e) = .error e := by
  induction lines with
  | nil => rfl
  | cons l rest ih => simpa [resolveStep] using ih

theorem foldl_step_plain (f : JStr → Except JStr (JStr × List JStr)) (fs : Fs)
    (root : JStr) (lines : List JStr)
    (h : ∀ l ∈ lines, marker.isPrefixOf l = false) :
    ∀ s0 ds0, lines.foldl (resolveStep f fs root) (.ok (s0, ds0)) =
      .ok (s0 ++ terminateLines lines, ds0) := by
  induction lines with
  | nil => intro s0 ds0; simp [terminateLines]
  | cons l rest ih =>
    intro s0 ds0
    have hl : marker.isPrefixOf l = false := h l (by simp)
    have hstep : resolveStep f fs root (.ok (s0, ds0)) l = .ok (s0 ++ l ++ nlc, ds0) := by
      simp [resolveStep, hl]
    rw [List.foldl_cons, hstep, ih (fun d hd => h d (by simp [hd]))]
    simp [terminateLines]

theorem resolveStep_shift (f : JStr → Except JStr (JStr × List JStr)) (fs : Fs)
    (root line s0 s1 : JStr) (ds0 ds1 : List JStr) :
    resolveStep f fs root (.ok (s0 ++ s1, ds0 ++ ds1)) line =
      match resolveStep f fs root (.ok (s1, ds1)) line with
      | .error e => .error e
      | .ok (s2, ds2) => .ok (s0 ++ s2, ds0 ++ ds2) := by
  by_cases hp : marker.isPrefixOf line
  · cases hm : includeMatch line with
    | some target =>
      by_cases he : fsExists fs (pathResolve root target)
      · cases hf : f (pathResolve root target) with
        | error e => simp [resolveStep, hp, hm, he, hf]
        | ok r => simp [resolveStep, hp, hm, he, hf]
      · simp [resolveStep, hp, hm, he]
    | none => simp [resolveStep, hp, hm]
  · simp [resolveStep, hp]

theorem foldl_step_shift (f : JStr → Except JStr (JStr × List JStr)) (fs : Fs)
    (root : JStr) (lines : List JStr) :
    ∀ (s0 s1 S : JStr) (ds0 ds1 DS : List JStr),
      lines.foldl (resolveStep f fs root) (.ok (s1, ds1)) = .ok (S, DS) →
      lines.foldl (resolveStep f fs root) (.ok (s0 ++ s1, ds0 ++ ds1)) =
        .ok (s0 ++ S, ds0 ++ DS) := by
  induction lines with
  | nil =>
    intro s0 s1 S ds0 ds1 DS h
    simp only [List.foldl_nil] at h ⊢
    cases h
    rfl
  | cons l rest ih =>
    intro s0 s1 S ds0 ds1 DS h
    rw [List.foldl_cons] at h ⊢
    rw [resolveStep_shift]
    cases hstep : resolveStep f fs root (.ok (s1, ds1)) l with
    | error e =>
      rw [hstep, foldl_step_error] at h
      exact absurd h (by simp)
    | ok r =>
      rw [hstep] at h
      exact ih s0 r.1 S ds0 r.2 DS h

theorem resolveAux_plain (fs : Fs) (root : JStr) (fuel : Nat) (p content : JStr)
    (hread : fs.read p = some content)
    (hlines : ∀ l ∈ splitLines content, marker.isPrefixOf l = false) :
    resolveIncludesAux fs root (fuel + 1) p =
      .ok (terminateLines (splitLines content), []) := by
  simp only [resolveIncludesAux, hread]
  rw [foldl_step_plain _ _ _ _ hlines [] []]
  rfl

theorem resolveIncludes_zero (fs : Fs) (root : JStr) (maxR : Nat) (p : JStr) :
    resolveIncludes fs root maxR p 0 = resolveIncludesAux fs root (maxR + 1) p := by
  simp [resolveIncludes]

theorem takeWhile_all_append (p : Char → Bool) (a b : JStr)
    (h : ∀ c ∈ a, p c = true) :
    (a ++ b).takeWhile p = a ++ b.takeWhile p := by
  induction a with
  | nil => simp
  | cons c rest ih =>
    simp only [List.cons_append, List.takeWhile_cons, h c (by simp)]
    rw [ih (fun d hd => h d (by simp [hd]))]
    simp

theorem takeWhile_stop (p : Char → Bool) (ws : JStr) (y : Char) (r : JStr)
    (hws : ∀ c ∈ ws, p c = true) (hy : p y = false) :
    (ws ++ y :: r).takeWhile p = ws := by
  rw [takeWhile_all_append p ws (y :: r) hws]
  simp [List.takeWhile_cons, hy]

theorem dropWhile_all_append (q : Char → Bool) (a b : JStr)
    (h : ∀ c ∈ a, q c = true) :
    (a ++ b).dropWhile q = b.dropWhile q := by
  induction a with
  | nil => simp
  | cons c rest ih =>
    simp only [List.cons_append, List.dropWhile_cons, h c (by simp)]
    exact ih (fun d hd => h d (by simp [hd]))

theorem drop_len_append (a b : JStr) : (a ++ b).drop a.length = b := by
  induction a with
  | nil => simp
  | cons c rest ih => simp

theorem mem_of_mem_takeWhile (p : Char → Bool) (l : JStr) (c : Char)
    (h : c ∈ l.takeWhile p) : c ∈ l := by
  induction l with
  | nil => simp at h
  | cons d rest ih =>
    rw [List.takeWhile_cons] at h
    by_cases hp : p d
    · simp [hp] at h
      rcases h with h | h
      · simp [h]
      · simp [ih h]
    · simp [hp] at h

theorem isPrefixOf_append_self (l r : JStr) : l.isPrefixOf (l ++ r) = true := by
  induction l with
  | nil => simp [List.isPrefixOf]
  | cons c rest ih => simp [List.isPrefixOf, ih]

theorem dropLit_append_self (l r : JStr) : dropLit l (l ++ r) = some r := by
  induction l with
  | nil => rfl
  | cons c rest ih => simpa [dropLit] using ih

theorem regexSearch_head (l r : JStr) (h : captureAt l = some r) :
    regexSearch l = some r := by
  cases l with
  | nil =>
    rw [show captureAt ([] : JStr) = none from rfl] at h
    cases h
  | cons c rest => simp [regexSearch, h]

theorem includeMatch_wf (ws mid tl : JStr) (hws : ws ≠ [])
    (hwsall : ∀ c ∈ ws, isSpaceJS c = true) (hmid : mid ≠ [])
    (hn : '\n' ∉ mid) (hr : '\r' ∉ mid) (hgt : '>' ∉ tl) :
    includeMatch (marker ++ ws ++ '<' :: (mid ++ '>' :: tl)) = some mid := by
  apply regexSearch_head
  unfold captureAt
  rw [List.append_assoc, dropLit_append_self]
  simp only
  rw [takeWhile_stop isSpaceJS ws '<' _ hwsall (by decide)]
  have hne : ws.isEmpty = false := by
    cases ws with
    | nil => exact absurd rfl hws
    | cons a b => rfl
  rw [hne]
  simp only [Bool.false_eq_true, if_false, drop_len_append]
  have hdotmid : ∀ c ∈ mid, isDotChar c = true := by
    intro c hc
    have h1 : c ≠ '\n' := fun he => hn (he ▸ hc)
    have h2 : c ≠ '\r' := fun he => hr (he ▸ hc)
    simp [isDotChar, h1, h2]
  rw [takeWhile_all_append isDotChar mid ('>' :: tl) hdotmid]
  rw [List.takeWhile_cons]
  simp only [show isDotChar '>' = true from rfl, if_true]
  rw [show (mid ++ '>' :: tl.takeWhile isDotChar).reverse
      = (tl.takeWhile isDotChar).reverse ++ '>' :: mid.reverse by
    simp [List.reverse_append]]
  rw [dropWhile_all_append _ _ _ (by
    intro c hc
    rw [List.mem_reverse] at hc
    have : c ∈ tl := mem_of_mem_takeWhile _ _ _ hc
    have : c ≠ '>' := fun he => hgt (he ▸ this)
    simp [this])]
  rw [List.dropWhile_cons]
  simp only [show (fun c => !(c = '>')) '>' = false by simp, Bool.false_eq_true, if_false]
  have hrevne : mid.reverse.isEmpty = false := by
    cases hm : mid.reverse with
    | nil => exact absurd (by simpa using congrArg List.reverse hm) hmid
    | cons a b => rfl
  simp [hrevne]

theorem directiveLine_shape (q : JStr) :
    directiveLine q = marker ++ [' '] ++ '<' :: (q ++ '>' :: []) := rfl

theorem marker_isPrefixOf_directiveLine (q : JStr) :
    marker.isPrefixOf (directiveLine q) = true := by
  rw [show directiveLine q = marker ++ (' ' :: '<' :: (q ++ '>' :: [])) from rfl]
  exact isPrefixOf_append_self marker _

theorem cleanAbs_ne_nil (q : JStr) (h : cleanAbs q) : q ≠ [] := by
  obtain ⟨h1, _, _, _⟩ := h
  intro he
  rw [he] at h1
  cases h1

theorem directiveLine_no_break (q : JStr) (h : cleanAbs q) :
    ∀ c ∈ directiveLine q, c ≠ '\n' ∧ c ≠ '\r' := by
  obtain ⟨_, _, hr, hn⟩ := h
  intro c hc
  rw [directiveLine_shape] at hc
  simp only [List.append_assoc, List.cons_append, List.mem_append, List.mem_cons,
    List.mem_singleton, List.not_mem_nil, or_false, false_or] at hc
  constructor <;> rintro rfl <;>
    rcases hc with hc | hc | hc | hc | hc <;>
      first
        | (revert hc; decide)
        | exact hn hc
        | exact hr hc

theorem includeMatch_directiveLine (q : JStr) (h : cleanAbs q) :
    includeMatch (directiveLine q) = some q := by
  rw [directiveLine_shape]
  exact includeMatch_wf [' '] q [] (by simp) (by decide)
    (cleanAbs_ne_nil q h) h.2.2.2 h.2.2.1 (by simp)

theorem suffix_procMsg (p e : JStr) : e <:+ procMsg p e :=
  List.suffix_append _ e

theorem pathResolve_abs (root q : JStr) (h : cleanAbs q) :
    pathResolve root q = q := by
  simp [pathResolve, h.1]

theorem chainOkAux (fs : Fs) (root : JStr) (pf : Nat → JStr) (n : Nat)
    (hchain : ∀ i, i < n → fs.read (pf i) = some (directiveLine (pf (i + 1))))
    (hclean : ∀ j, 1 ≤ j → j ≤ n → cleanAbs (pf j))
    (hend : ∃ c, fs.read (pf n) = some c ∧
      ∀ l ∈ splitLines c, marker.isPrefixOf l = false) :
    ∀ k i fuel, i + k = n → k < fuel →
      ∃ s ds, resolveIncludesAux fs root fuel (pf i) = .ok (s, ds) := by
  intro k
  induction k with
  | zero =>
    intro i fuel hik hkf
    obtain ⟨c, hc, hcl⟩ := hend
    obtain ⟨f, rfl⟩ : ∃ f, fuel = f + 1 := ⟨fuel - 1, by omega⟩
    have hin : i = n := by omega
    subst hin
    exact ⟨_, _, resolveAux_plain fs root f (pf i) c hc hcl⟩
  | succ k ih =>
    intro i fuel hik hkf
    obtain ⟨f, rfl⟩ : ∃ f, fuel = f + 1 := ⟨fuel - 1, by omega⟩
    have hi : i < n := by omega
    have hreadi := hchain i hi
    have hcl1 : cleanAbs (pf (i + 1)) := hclean (i + 1) (by omega) (by omega)
    have hsplit := splitLines_single _ (directiveLine_no_break _ hcl1)
    obtain ⟨s, ds, hrec⟩ := ih (i + 1) f (by omega) (by omega)
    have hexists : fsExists fs (pf (i + 1)) = true := by
      rcases Nat.lt_or_ge (i + 1) n with h | h
      · simp [fsExists, hchain (i + 1) h]
      · have he : i + 1 = n := by omega
        obtain ⟨c, hc, _⟩ := hend
        rw [fsExists, he, hc]
        rfl
    refine ⟨s ++ nlc, ds, ?_⟩
    simp only [resolveIncludesAux, hreadi, hsplit, List.foldl_cons, List.foldl_nil,
      resolveStep, marker_isPrefixOf_directiveLine, if_true,
      includeMatch_directiveLine _ hcl1, pathResolve_abs root _ hcl1, hexists, hrec]
    rfl

theorem chainErrAux (fs : Fs) (root : JStr) (pf : Nat → JStr) (n : Nat)
    (hchain : ∀ i, i < n → fs.read (pf i) = some (directiveLine (pf (i + 1))))
    (hclean : ∀ j, 1 ≤ j → j ≤ n → cleanAbs (pf j))
    (hend : (fs.read (pf n)).isSome = true) :
    ∀ k i, i + k = n →
      ∃ e, resolveIncludesAux fs root k (pf i) = .error e ∧ depthMsg (pf n) <:+ e := by
  intro k
  induction k with
  | zero =>
    intro i hik
    have hin : i = n := by omega
    subst hin
    exact ⟨depthMsg (pf i), rfl, List.suffix_refl _⟩
  | succ k ih =>
    intro i hik
    have hi : i < n := by omega
    have hreadi := hchain i hi
    have hcl1 : cleanAbs (pf (i + 1)) := hclean (i + 1) (by omega) (by omega)
    have hsplit := splitLines_single _ (directiveLine_no_break _ hcl1)
    obtain ⟨e, he, hsuf⟩ := ih (i + 1) (by omega)
    have hexists : fsExists fs (pf (i + 1)) = true := by
      rcases Nat.lt_or_ge (i + 1) n with h | h
      · simp [fsExists, hchain (i + 1) h]
      · have heq : i + 1 = n := by omega
        rw [fsExists, heq]
        cases hh : fs.read (pf n) with
        | none => rw [hh] at hend; cases hend
        | some c => rfl
    refine ⟨procMsg (pf i) e, ?_, hsuf.trans (suffix_procMsg _ e)⟩
    simp only [resolveIncludesAux, hreadi, hsplit, List.foldl_cons, List.foldl_nil,
      resolveStep, marker_isPrefixOf_directiveLine, if_true,
      includeMatch_directiveLine _ hcl1, pathResolve_abs root _ hcl1, hexists, he]

theorem resolveAux_succ (fs : Fs) (root : JStr) (fuel : Nat) (p content : JStr)
    (hread : fs.read p = some content) :
    resolveIncludesAux fs root (fuel + 1) p =
      match (splitLines content).foldl
          (resolveStep (resolveIncludesAux fs root fuel) fs root)
          (Except.ok ([], [])) with
      | .error e => .error (procMsg p e)
      | .ok r => .ok r := by
  simp only [resolveIncludesAux, hread]

/-- C1 counterexample: in the end-to-end scenario with includeRoot equal
to watchRoot, input a.html consisting of the directive line for b.html
and b.html containing Hello, the written output is Hello followed by TWO
terminators, not the single terminator the claim states: the nested
resolution already terminates the spliced line and the directive branch
appends a further terminator. -/
theorem c1_counterexample :
    (processTextFile
      ⟨[(str "/w/a.html", str "##include <b.html>"), (str "/w/b.html", str "Hello")]⟩
      ⟨[]⟩ (str "/w/a.html") (str "/out") (str "/w") 10 (str "/w")).1.read
      (str "/out/a.html") = some (str "Hello" ++ nlc ++ nlc)
    ∧ str "Hello" ++ nlc ++ nlc ≠ str "Hello" ++ nlc :=
  ⟨by decide, by decide⟩

/-- C1 (corrected): for a file consisting of one directive line whose
target exists and itself contains no directive lines, expansion replaces
the directive line by the expanded target content, which is the target
lines each followed by the terminator, followed by one additional
terminator. -/
theorem c1_single_directive_splice (fs : Fs) (root : JStr) (maxR : Nat)
    (pa line target q tc : JStr)
    (hmax : 1 ≤ maxR)
    (hpref : marker.isPrefixOf line = true)
    (hline : ∀ c ∈ line, c ≠ '\n' ∧ c ≠ '\r')
    (hmatch : includeMatch line = some target)
    (hq : pathResolve root target = q)
    (hreada : fs.read pa = some line)
    (hreadq : fs.read q = some tc)
    (htc : ∀ l ∈ splitLines tc, marker.isPrefixOf l = false) :
    resolveIncludes fs root maxR pa 0 =
      .ok (terminateLines (splitLines tc) ++ nlc, []) := by
  rw [resolveIncludes_zero]
  obtain ⟨m, rfl⟩ : ∃ m, maxR = m + 1 := ⟨maxR - 1, by omega⟩
  have hsplit := splitLines_single line hline
  have hexists : fsExists fs q = true := by rw [fsExists, hreadq]; rfl
  have hrec : resolveIncludesAux fs root (m + 1) q =
      .ok (terminateLines (splitLines tc), []) :=
    resolveAux_plain fs root m q tc hreadq htc
  rw [resolveAux_succ fs root (m + 1) pa line hreada]
  simp only [hsplit, List.foldl_cons, List.foldl_nil,
    resolveStep, hpref, if_true, hmatch, hq, hexists, hrec]
  rfl

/-- C1 witness: the scenario of the claim, evaluated through the
corrected statement. -/
theorem c1_single_directive_splice_witness :
    resolveIncludes
      ⟨[(str "/w/a.html", str "##include <b.html>"), (str "/w/b.html", str "Hello")]⟩
      (str "/w") 10 (str "/w/a.html") 0
      = .ok (terminateLines (splitLines (str "Hello")) ++ nlc, []) :=
  c1_single_directive_splice
    ⟨[(str "/w/a.html", str "##include <b.html>"), (str "/w/b.html", str "Hello")]⟩
    (str "/w") 10 (str "/w/a.html") (str "##include <b.html>") (str "b.html")
    (str "/w/b.html") (str "Hello")
    (by omega) (by decide) (by decide) (by decide) (by decide) rfl rfl (by decide)

/-- C2 counterexample: a directive-free file containing Hello expands to
Hello plus a terminator, while the identity up to line-terminator
normalization of the claim would leave it exactly Hello. -/
theorem c2_counterexample :
    resolveIncludes ⟨[(str "/w/a.txt", str "Hello")]⟩ (str "/w") 10
      (str "/w/a.txt") 0 = .ok (str "Hello" ++ nlc, [])
    ∧ specNormalizeNewlines (str "Hello") = str "Hello"
    ∧ (∀ l ∈ splitLines (str "Hello"), marker.isPrefixOf l = false)
    ∧ str "Hello" ++ nlc ≠ str "Hello" :=
  ⟨by decide, by decide, by decide, by decide⟩

/-- C2 (corrected): for a file none of whose lines begins with the
marker, expansion returns the lines of the file unchanged, each followed
by the single normalized terminator; this is the identity up to
line-terminator normalization plus exactly one terminator appended after
the final line. -/
theorem c2_no_directive_normalized (fs : Fs) (root : JStr) (maxR : Nat)
    (p content : JStr) (hread : fs.read p = some content)
    (hlines : ∀ l ∈ splitLines content, marker.isPrefixOf l = false) :
    resolveIncludes fs root maxR p 0 =
      .ok (terminateLines (splitLines content), []) := by
  rw [resolveIncludes_zero]
  exact resolveAux_plain fs root maxR p content hread hlines

/-- C2 witness: a file mixing CRLF and LF line endings resolves to its
three lines each followed by the normalized terminator. -/
theorem c2_no_directive_normalized_witness :
    resolveIncludes ⟨[(str "/w/m.txt", str "a\r\nb\nc")]⟩ (str "/w") 10
      (str "/w/m.txt") 0 = .ok (terminateLines (splitLines (str "a\r\nb\nc")), []) :=
  c2_no_directive_normalized ⟨[(str "/w/m.txt", str "a\r\nb\nc")]⟩ (str "/w") 10
    (str "/w/m.txt") (str "a\r\nb\nc") rfl (by decide)

/-- C3 counterexample: on a marker line holding two bracketed groups the
greedy capture runs to the LAST closing bracket, so the extracted target
is not the text between the first opening bracket and the next closing
bracket. -/
theorem c3_counterexample :
    includeMatch (str "##include <a> and <b>") = some (str "a> and <b")
    ∧ some (str "a> and <b") ≠ some (str "a") :=
  ⟨by decide, by decide⟩

/-- C3 (corrected): on a line formed of the marker, at least one
whitespace character, an opening angle bracket, a nonempty middle part
free of line terminators, and a closing angle bracket followed by a tail
holding no further closing bracket, the extracted target is exactly that
middle part: the capture of the regex is greedy, so it extends to the
LAST closing bracket of the line rather than stopping at the first one.
Nothing is asserted here about marker lines of any other shape.  Lines
that do not begin with the marker are never treated as directives: a
single-line file of such a line resolves to the line itself plus the
terminator. -/
theorem c3_directive_target_extraction :
    (∀ ws mid tl : JStr, ws ≠ [] → (∀ c ∈ ws, isSpaceJS c = true) →
      mid ≠ [] → '\n' ∉ mid → '\r' ∉ mid → '>' ∉ tl →
      includeMatch (marker ++ ws ++ '<' :: (mid ++ '>' :: tl)) = some mid)
    ∧ (∀ (fs : Fs) (root : JStr) (maxR : Nat) (p line : JStr),
      marker.isPrefixOf line = false → (∀ c ∈ line, c ≠ '\n' ∧ c ≠ '\r') →
      fs.read p = some line →
      resolveIncludes fs root maxR p 0 = .ok (line ++ nlc, [])) := by
  constructor
  · exact includeMatch_wf
  · intro fs root maxR p line hpref hline hread
    rw [resolveIncludes_zero]
    have hlines : ∀ l ∈ splitLines line, marker.isPrefixOf l = false := by
      rw [splitLines_single line hline]
      intro l hl
      rw [List.mem_singleton] at hl
      subst hl
      exact hpref
    rw [resolveAux_plain fs root maxR p line hread hlines,
      splitLines_single line hline]
    simp [terminateLines]

/-- C3 witness: the greedy extraction on the two-bracket line, and a
non-marker line copied verbatim. -/
theorem c3_directive_target_extraction_witness :
    includeMatch (marker ++ [' '] ++ '<' :: (str "a> and <b" ++ '>' :: []))
      = some (str "a> and <b")
    ∧ resolveIncludes ⟨[(str "/w/p.txt", str "plain text")]⟩ (str "/w") 10
      (str "/w/p.txt") 0 = .ok (str "plain text" ++ nlc, []) :=
  ⟨c3_directive_target_extraction.1 [' '] (str "a> and <b") [] (by decide)
    (by decide) (by decide) (by decide) (by decide) (by decide),
   c3_directive_target_extraction.2 ⟨[(str "/w/p.txt", str "plain text")]⟩
    (str "/w") 10 (str "/w/p.txt") (str "plain text") (by decide) (by decide) rfl⟩

/-- C4 (confirmed): for a linear chain of n nested includes the
expansion of the top file succeeds when n is at most maxRecursion, and
for n equal to maxRecursion + 1 it fails with an error whose message
carries the depth-exceeded text naming the file being processed when the
ceiling was hit. -/
theorem c4_chain_depth (fs : Fs) (root : JStr) (pf : Nat → JStr) (n maxR : Nat)
    (hchain : ∀ i, i < n → fs.read (pf i) = some (directiveLine (pf (i + 1))))
    (hclean : ∀ j, 1 ≤ j → j ≤ n → cleanAbs (pf j))
    (hend : ∃ c, fs.read (pf n) = some c ∧
      ∀ l ∈ splitLines c, marker.isPrefixOf l = false) :
    (n ≤ maxR → ∃ s ds, resolveIncludes fs root maxR (pf 0) 0 = .ok (s, ds))
    ∧ (n = maxR + 1 →
      ∃ e, resolveIncludes fs root maxR (pf 0) 0 = .error e
        ∧ depthMsg (pf n) <:+ e) := by
  constructor
  · intro hn
    rw [resolveIncludes_zero]
    exact chainOkAux fs root pf n hchain hclean hend n 0 (maxR + 1) (by omega) (by omega)
  · intro hn
    subst hn
    rw [resolveIncludes_zero]
    have hendS : (fs.read (pf (maxR + 1))).isSome = true := by
      obtain ⟨c, hc, _⟩ := hend
      rw [hc]
      rfl
    exact chainErrAux fs root pf (maxR + 1) hchain hclean hendS (maxR + 1) 0 (by omega)

/-- C4 witness: with maxRecursion 1, a one-step chain succeeds and a
two-step chain fails with the depth message naming the deepest file. -/
theorem c4_chain_depth_witness :
    (∃ s ds, resolveIncludes ⟨[(str "/a", directiveLine (str "/b")), (str "/b", str "end")]⟩
      (str "/r") 1 (str "/a") 0 = .ok (s, ds))
    ∧ (∃ e, resolveIncludes
        ⟨[(str "/a", directiveLine (str "/b")), (str "/b", directiveLine (str "/c")),
          (str "/c", str "end")]⟩
        (str "/r") 1 (str "/a") 0 = .error e ∧ depthMsg (str "/c") <:+ e) := by
  constructor
  · exact (c4_chain_depth
      ⟨[(str "/a", directiveLine (str "/b")), (str "/b", str "end")]⟩
      (str "/r") (fun i => if i = 0 then str "/a" else str "/b") 1 1
      (fun i hi => by
        have h0 : i = 0 := by omega
        subst h0
        rfl)
      (fun j h1 h2 => by
        have hj : j = 1 := by omega
        subst hj
        decide)
      ⟨str "end", rfl, by decide⟩).1 (by omega)
  · exact (c4_chain_depth
      ⟨[(str "/a", directiveLine (str "/b")), (str "/b", directiveLine (str "/c")),
        (str "/c", str "end")]⟩
      (str "/r") (fun i => if i = 0 then str "/a" else if i = 1 then str "/b" else str "/c") 2 1
      (fun i hi => by
        interval_cases i
        · rfl
        · rfl)
      (fun j h1 h2 => by
        interval_cases j
        · decide
        · decide)
      ⟨str "end", rfl, by decide⟩).2 rfl

/-- C6 (confirmed): along any unending include chain, in particular a
file including itself or a mutually referential cycle, the expansion of
the head file terminates with an error carrying the depth-exceeded text
for the file reached at depth maxRecursion + 1.  In this model the
resolver is a total function, so termination holds by construction; the
theorem exhibits the depth failure the claim describes. -/
theorem c6_cycle_terminates (fs : Fs) (root : JStr) (pf : Nat → JStr) (maxR : Nat)
    (hchain : ∀ i, fs.read (pf i) = some (directiveLine (pf (i + 1))))
    (hclean : ∀ i, cleanAbs (pf i)) :
    ∃ e, resolveIncludes fs root maxR (pf 0) 0 = .error e
      ∧ depthMsg (pf (maxR + 1)) <:+ e := by
  rw [resolveIncludes_zero]
  exact chainErrAux fs root pf (maxR + 1) (fun i _ => hchain i)
    (fun j _ _ => hclean j)
    (by rw [hchain (maxR + 1)]; rfl) (maxR + 1) 0 (by omega)

/-- C6 witness: a directly self-including file fails with the depth
message naming itself. -/
theorem c6_cycle_terminates_witness :
    ∃ e, resolveIncludes ⟨[(str "/a", directiveLine (str "/a"))]⟩ (str "/r") 1
      (str "/a") 0 = .error e ∧ depthMsg (str "/a") <:+ e :=
  c6_cycle_terminates ⟨[(str "/a", directiveLine (str "/a"))]⟩ (str "/r")
    (fun _ => str "/a") 1 (fun _ => rfl)
    (fun _ => (by decide : cleanAbs (str "/a")))

theorem resolveWrap_ok (m : Except JStr (JStr × List JStr)) (p : JStr)
    (v : JStr × List JStr)
    (h : (match m with
      | .error e => Except.error (procMsg p e)
      | .ok r => Except.ok r) = .ok v) : m = .ok v := by
  cases m with
  | error e => simp at h
  | ok r => exact h

/-- C5 (confirmed): when the resolution of a text file fails, in
particular with the depth-exceeded condition, processTextFile performs
no write at all — the output filesystem is returned exactly as it was,
so either no output file exists or its previous version is untouched —
and the only console output is the caught error message; the directory
walk then continues with the remaining entries unchanged. -/
theorem c5_error_no_partial_output (fs outFs : Fs)
    (inputDir outputDir includeRoot watchRoot : JStr) (exts : List JStr)
    (maxR : Nat) (name e : JStr) (rest : List FTree)
    (herr : resolveIncludes fs includeRoot maxR (pathJoin inputDir name) 0 = .error e)
    (hskip : shouldSkip (pathJoin inputDir name) outputDir = false)
    (htext : isTextFile (pathJoin inputDir name) exts = true) :
    processTextFile fs outFs (pathJoin inputDir name) outputDir includeRoot maxR
      watchRoot = (outFs, [e])
    ∧ processDirectory fs inputDir outputDir exts includeRoot maxR watchRoot
        (FTree.file name :: rest) outFs
      = ((processDirectory fs inputDir outputDir exts includeRoot maxR watchRoot
          rest outFs).1,
         e :: (processDirectory fs inputDir outputDir exts includeRoot maxR watchRoot
          rest outFs).2) := by
  have h1 : processTextFile fs outFs (pathJoin inputDir name) outputDir includeRoot
      maxR watchRoot = (outFs, [e]) := by
    simp only [processTextFile, herr]
  refine ⟨h1, ?_⟩
  have h2 : processEntry fs inputDir outputDir exts includeRoot maxR watchRoot
      (FTree.file name) outFs = (outFs, [e]) := by
    simp only [processEntry, FTree.name, hskip, Bool.false_eq_true, if_false, htext,
      if_true]
    exact h1
  rw [processDirectory, h2]
  simp

/-- C5 witness: a self-including file with maxRecursion 0 fails with the
wrapped depth message, the stale previous output survives untouched, and
the walk over the one-entry directory only logs the message. -/
theorem c5_error_no_partial_output_witness :
    processTextFile ⟨[(str "/w/a.sql", str "##include <a.sql>")]⟩
      ⟨[(str "/w/dist/a.sql", str "old")]⟩ (str "/w/a.sql") (str "/w/dist")
      (str "/w") 0 (str "/w")
      = (⟨[(str "/w/dist/a.sql", str "old")]⟩,
         [procMsg (str "/w/a.sql") (depthMsg (str "/w/a.sql"))])
    ∧ processDirectory ⟨[(str "/w/a.sql", str "##include <a.sql>")]⟩ (str "/w")
        (str "/w/dist") [str ".sql"] (str "/w") 0 (str "/w")
        [FTree.file (str "a.sql")] ⟨[(str "/w/dist/a.sql", str "old")]⟩
      = ((processDirectory ⟨[(str "/w/a.sql", str "##include <a.sql>")]⟩ (str "/w")
          (str "/w/dist") [str ".sql"] (str "/w") 0 (str "/w") []
          ⟨[(str "/w/dist/a.sql", str "old")]⟩).1,
         procMsg (str "/w/a.sql") (depthMsg (str "/w/a.sql"))
           :: (processDirectory ⟨[(str "/w/a.sql", str "##include <a.sql>")]⟩ (str "/w")
          (str "/w/dist") [str ".sql"] (str "/w") 0 (str "/w") []
          ⟨[(str "/w/dist/a.sql", str "old")]⟩).2) :=
  c5_error_no_partial_output ⟨[(str "/w/a.sql", str "##include <a.sql>")]⟩
    ⟨[(str "/w/dist/a.sql", str "old")]⟩ (str "/w") (str "/w/dist") (str "/w")
    (str "/w") [str ".sql"] 0 (str "a.sql")
    (procMsg (str "/w/a.sql") (depthMsg (str "/w/a.sql"))) []
    (by decide) (by decide) (by decide)

/-- C7 (confirmed): a line that begins with the marker but fails the
directive pattern contributes nothing to the output, a malformed
diagnostic is emitted for it, and the remaining lines of the file expand
exactly as they would on their own. -/
theorem c7_malformed_directive_dropped (fs : Fs) (root : JStr) (maxR : Nat)
    (pa pb line rc s : JStr) (ds : List JStr)
    (hpref : marker.isPrefixOf line = true)
    (hmatch : includeMatch line = none)
    (hline : ∀ c ∈ line, c ≠ '\n' ∧ c ≠ '\r')
    (hreada : fs.read pa = some (line ++ '\n' :: rc))
    (hreadb : fs.read pb = some rc)
    (hok : resolveIncludes fs root maxR pb 0 = .ok (s, ds)) :
    resolveIncludes fs root maxR pa 0 = .ok (s, malformedMsg line :: ds) := by
  rw [resolveIncludes_zero] at hok ⊢
  rw [resolveAux_succ fs root maxR pb rc hreadb] at hok
  have hfold := resolveWrap_ok _ pb (s, ds) hok
  rw [resolveAux_succ fs root maxR pa (line ++ '\n' :: rc) hreada]
  rw [splitLines_cons line rc hline, List.foldl_cons]
  have hstep : resolveStep (resolveIncludesAux fs root maxR) fs root
      (Except.ok ([], [])) line = .ok ([], [malformedMsg line]) := by
    simp [resolveStep, hpref, hmatch]
  rw [hstep]
  have hshift := foldl_step_shift (resolveIncludesAux fs root maxR) fs root
    (splitLines rc) [] [] s [malformedMsg line] [] ds hfold
  simp only [List.append_nil, List.nil_append] at hshift
  rw [hshift]
  rfl

/-- C7 witness: a marker line with an unclosed bracket is dropped with a
diagnostic while the following line is expanded normally. -/
theorem c7_malformed_directive_dropped_witness :
    resolveIncludes ⟨[(str "/w/a.txt", str "##include <x\ntail"),
        (str "/w/b.txt", str "tail")]⟩ (str "/w") 10 (str "/w/a.txt") 0
      = .ok (str "tail" ++ nlc, malformedMsg (str "##include <x") :: []) :=
  c7_malformed_directive_dropped
    ⟨[(str "/w/a.txt", str "##include <x\ntail"), (str "/w/b.txt", str "tail")]⟩
    (str "/w") 10 (str "/w/a.txt") (str "/w/b.txt") (str "##include <x")
    (str "tail") (str "tail" ++ nlc) []
    (by decide) (by decide) (by decide) rfl rfl (by decide)

/-- C8 (confirmed): a well-formed directive whose resolved target does
not exist yields a file-not-found diagnostic naming the resolved path,
substitutes nothing for the directive line, and the remaining lines of
the file expand exactly as they would on their own. -/
theorem c8_missing_target_skipped (fs : Fs) (root : JStr) (maxR : Nat)
    (pa pb line rc target s : JStr) (ds : List JStr)
    (hpref : marker.isPrefixOf line = true)
    (hmatch : includeMatch line = some target)
    (hmiss : fsExists fs (pathResolve root target) = false)
    (hline : ∀ c ∈ line, c ≠ '\n' ∧ c ≠ '\r')
    (hreada : fs.read pa = some (line ++ '\n' :: rc))
    (hreadb : fs.read pb = some rc)
    (hok : resolveIncludes fs root maxR pb 0 = .ok (s, ds)) :
    resolveIncludes fs root maxR pa 0
      = .ok (s, fileNotFoundMsg (pathResolve root target) :: ds) := by
  rw [resolveIncludes_zero] at hok ⊢
  rw [resolveAux_succ fs root maxR pb rc hreadb] at hok
  have hfold := resolveWrap_ok _ pb (s, ds) hok
  rw [resolveAux_succ fs root maxR pa (line ++ '\n' :: rc) hreada]
  rw [splitLines_cons line rc hline, List.foldl_cons]
  have hstep : resolveStep (resolveIncludesAux fs root maxR) fs root
      (Except.ok ([], [])) line
      = .ok ([], [fileNotFoundMsg (pathResolve root target)]) := by
    simp [resolveStep, hpref, hmatch, hmiss]
  rw [hstep]
  have hshift := foldl_step_shift (resolveIncludesAux fs root maxR) fs root
    (splitLines rc) [] [] s [fileNotFoundMsg (pathResolve root target)] [] ds hfold
  simp only [List.append_nil, List.nil_append] at hshift
  rw [hshift]
  rfl

/-- C8 witness: a directive naming a missing file is skipped with the
diagnostic naming the resolved absolute path, and the next line is
expanded normally. -/
theorem c8_missing_target_skipped_witness :
    resolveIncludes ⟨[(str "/w/a.txt", str "##include <missing.html>\ntail"),
        (str "/w/b.txt", str "tail")]⟩ (str "/w") 10 (str "/w/a.txt") 0
      = .ok (str "tail" ++ nlc,
          fileNotFoundMsg (pathResolve (str "/w") (str "missing.html")) :: []) :=
  c8_missing_target_skipped
    ⟨[(str "/w/a.txt", str "##include <missing.html>\ntail"),
      (str "/w/b.txt", str "tail")]⟩
    (str "/w") 10 (str "/w/a.txt") (str "/w/b.txt")
    (str "##include <missing.html>") (str "tail") (str "missing.html")
    (str "tail" ++ nlc) []
    (by decide) (by decide) (by decide) (by decide) rfl rfl (by decide)

/-- C9 counterexample: with skipDelete true and no pre-existing output
directory, reset leaves the directory missing — its existence is not
ensured, contrary to the claim. -/
theorem c9_counterexample :
    resetOutputDirectory none true = none
    ∧ (resetOutputDirectory none true).isSome = false :=
  ⟨rfl, rfl⟩

/-- C9 (corrected): with skipDelete true, reset leaves the output state
exactly as it was — untouched if present, and still missing if absent
(existence is not ensured; output directories are only created later
when individual files are written).  With skipDelete false, the output
directory is removed if present and recreated empty. -/
theorem c9_reset_behavior :
    (∀ st : Option (List (JStr × JStr)), resetOutputDirectory st true = st)
    ∧ (∀ st : Option (List (JStr × JStr)), resetOutputDirectory st false = some []) :=
  ⟨fun _ => rfl, fun _ => rfl⟩

/-- C10 (confirmed): the output-root containment check is a raw
string-prefix test on resolved paths: any entry whose joined path starts
with the output root string is dropped by the directory walk and by the
watch handler, and the test also fires for sibling paths such as a
directory named dist2 beside an output root named dist, which is not
inside the output root at all. -/
theorem c10_skip_string_test (fs : Fs) (inputDir outputDir directory : JStr)
    (exts : List JStr) (includeRoot : JStr) (maxR : Nat) (watchRoot : JStr)
    (e : FTree) (outFs outFs2 : Fs) (fn : JStr)
    (h1 : shouldSkip (pathJoin inputDir e.name) outputDir = true)
    (h2 : shouldSkip (pathJoin directory fn) outputDir = true) :
    processEntry fs inputDir outputDir exts includeRoot maxR watchRoot e outFs
      = (outFs, [])
    ∧ watchHandleEvent fs directory outputDir exts includeRoot maxR watchRoot
        outFs2 (some fn) = (outFs2, [])
    ∧ shouldSkip (str "/w/dist2/a.html") (str "/w/dist") = true
    ∧ (str "/w/dist" ++ ['/']).isPrefixOf (str "/w/dist2/a.html") = false
    ∧ str "/w/dist2/a.html" ≠ str "/w/dist" := by
  refine ⟨?_, ?_, by decide, by decide, by decide⟩
  · rw [processEntry.eq_def]
    simp [h1]
  · simp only [watchHandleEvent, h2, if_true]

/-- C10 witness: the output directory inside the input tree is skipped
by the walk, and a sibling path sharing the output root as a mere string
prefix is skipped by the watcher. -/
theorem c10_skip_string_test_witness :
    processEntry ⟨[]⟩ (str "/w") (str "/w/dist") [str ".sql"] (str "/w") 10
      (str "/w") (FTree.dir (str "dist") []) ⟨[]⟩ = (⟨[]⟩, [])
    ∧ watchHandleEvent ⟨[]⟩ (str "/w") (str "/w/dist") [str ".sql"] (str "/w") 10
        (str "/w") ⟨[(str "/x", str "y")]⟩ (some (str "dist2/a.html"))
      = (⟨[(str "/x", str "y")]⟩, [])
    ∧ shouldSkip (str "/w/dist2/a.html") (str "/w/dist") = true
    ∧ (str "/w/dist" ++ ['/']).isPrefixOf (str "/w/dist2/a.html") = false
    ∧ str "/w/dist2/a.html" ≠ str "/w/dist" :=
  c10_skip_string_test ⟨[]⟩ (str "/w") (str "/w/dist") (str "/w") [str ".sql"]
    (str "/w") 10 (str "/w") (FTree.dir (str "dist") []) ⟨[]⟩
    ⟨[(str "/x", str "y")]⟩ (str "dist2/a.html") (by decide) (by decide)
